import Mathlib

/-!
Verification of the Smart-Mobility repository.

Part I embeds the frame-sampling loop of
`extract-video-frames/extract_frames.py` (`extract_frames_from_video`):
the source computes `frame_interval = int(original_frame_rate / frame_rate)`
and then, for each decoded frame, saves it when
`frame_count % frame_interval == 0`, numbering saved files with
`extracted_frame_count`.

Part II models the detection-to-track association engine specified for
`object-detection-and-tracking/track_with_supervision.py`.  The tracking
core itself is delegated to an external library and is not present in the
source tree, so it is modelled from the specification (sections 4.2-4.4
and 7): IoU-distance costs, a two-stage confidence-stratified matching
under a maximum-distance threshold, and the Tentative/Confirmed/Lost/
Removed track lifecycle with monotonically allocated identifiers.
-/

namespace SmartMobility

/-! ### Definitions -/

/-- Python `int()` applied to a rational: truncation toward zero. -/
def pyInt (q : ℚ) : ℤ :=
  if 0 ≤ q then ⌊q⌋ else -⌊-q⌋

/-- The interval `frame_interval = int(original_frame_rate / frame_rate)`
computed by `extract_frames_from_video`. -/
def frame_interval (original_frame_rate frame_rate : ℚ) : ℤ :=
  pyInt (original_frame_rate / frame_rate)

/-- The mutable loop state of `extract_frames_from_video`: the two counters
plus the list of saved frames, each recorded as
(frame index in the video, number used in the saved filename). -/
structure ExtractState where
  frame_count : ℕ
  extracted_frame_count : ℕ
  saved : List (ℕ × ℕ)
  deriving Repr, DecidableEq

/-- The `while True` loop of `extract_frames_from_video`, reading `n` more
frames.  Evaluating `frame_count % frame_interval` with a zero interval
raises `ZeroDivisionError` in Python, modelled as `Except.error`. -/
def extractLoop (interval : ℤ) : ℕ → ExtractState → Except Unit ExtractState
  | 0, st => .ok st
  | n + 1, st =>
    if interval = 0 then .error ()
    else if (st.frame_count : ℤ) % interval = 0 then
      extractLoop interval n
        { frame_count := st.frame_count + 1,
          extracted_frame_count := st.extracted_frame_count + 1,
          saved := st.saved ++ [(st.frame_count, st.extracted_frame_count)] }
    else
      extractLoop interval n { st with frame_count := st.frame_count + 1 }

/-- The run of `extract_frames_from_video` on a video stream that decodes
exactly `n` frames: returns the saved frames (index, filename number) in
save order. -/
def extract_frames_from_video (interval : ℤ) (n : ℕ) :
    Except Unit (List (ℕ × ℕ)) :=
  (extractLoop interval n ⟨0, 0, []⟩).map ExtractState.saved

/-- Closed form of the frames saved by the loop when started at frame
counter `c` and extracted counter `e`, with `n` frames left to read. -/
def savedPure (interval : ℤ) : ℕ → ℕ → ℕ → List (ℕ × ℕ)
  | _, _, 0 => []
  | c, e, n + 1 =>
    if (c : ℤ) % interval = 0 then (c, e) :: savedPure interval (c + 1) (e + 1) n
    else savedPure interval (c + 1) e n

/-- The sampling rate actually achieved by the interval-based sampler: the
source delivers `original_frame_rate` frames per second, of which one in
every `frame_interval` is saved. -/
def achievedRate (original_frame_rate frame_rate : ℚ) : ℚ :=
  original_frame_rate / (frame_interval original_frame_rate frame_rate : ℚ)

/-- Modelled from the spec: a bounding box `(x_min, y_min, x_max, y_max)`,
real-valued (section 3); the implementation is missing from the source tree. -/
structure Box where
  x_min : ℚ
  y_min : ℚ
  x_max : ℚ
  y_max : ℚ
  deriving Repr, DecidableEq

/-- Modelled from the spec: area of a box. -/
def Box.area (b : Box) : ℚ :=
  (b.x_max - b.x_min) * (b.y_max - b.y_min)

/-- Length of the overlap of two closed intervals, clamped at zero. -/
def overlapLen (a1 a2 b1 b2 : ℚ) : ℚ :=
  max 0 (min a2 b2 - max a1 b1)

/-- Modelled from the spec: Intersection-over-Union of two boxes (glossary);
ratio of overlapping area to union area, 0 when the union is degenerate. -/
def iou (a b : Box) : ℚ :=
  let inter := overlapLen a.x_min a.x_max b.x_min b.x_max *
    overlapLen a.y_min a.y_max b.y_min b.y_max
  let union := a.area + b.area - inter
  if union = 0 then 0 else inter / union

/-- Modelled from the spec: the Association Engine cost function
`1 - IoU(predicted_box, detection_box)` (section 4.2). -/
def iouDist (a b : Box) : ℚ := 1 - iou a b

/-- Modelled from the spec: one detection per object per frame: box,
confidence in `[0,1]`, class label (section 3). -/
structure Detection where
  box : Box
  confidence : ℚ
  classId : ℕ
  deriving Repr, DecidableEq

/-- Modelled from the spec: a well-formed detection has a normalized box
(`x_min < x_max`, `y_min < y_max`) and confidence in `[0,1]` (section 7). -/
def Detection.valid (d : Detection) : Bool :=
  decide (d.box.x_min < d.box.x_max) && decide (d.box.y_min < d.box.y_max) &&
  decide (0 ≤ d.confidence) && decide (d.confidence ≤ 1)

/-- Modelled from the spec: the track lifecycle states (section 4.3). -/
inductive TrackState where
  | Tentative
  | Confirmed
  | Lost
  | Removed
  deriving Repr, DecidableEq

/-- Modelled from the spec: a persistent track: identifier, current box,
velocity estimate, class label, lifecycle state, hit/miss counters and age
(section 3). -/
structure Track where
  id : ℕ
  box : Box
  vx : ℚ
  vy : ℚ
  classId : ℕ
  state : TrackState
  hits : ℕ
  misses : ℕ
  age : ℕ
  deriving Repr, DecidableEq

/-- Modelled from the spec: Motion Model prediction, a deterministic linear
extrapolation of the current box one frame forward along the velocity
estimate (section 4.1); it does not mutate the track. -/
def Track.predictedBox (t : Track) : Box :=
  ⟨t.box.x_min + t.vx, t.box.y_min + t.vy, t.box.x_max + t.vx, t.box.y_max + t.vy⟩

/-- Modelled from the spec: the tunable parameters exposed at Session
construction (section 6): high-confidence threshold, maximum IoU-distance
for a valid match, minimum hits to confirm, maximum consecutive misses. -/
structure Config where
  highConf : ℚ
  maxDist : ℚ
  minHits : ℕ
  maxMisses : ℕ
  deriving Repr, DecidableEq

/-- Placeholder box used only to give list indexing a total default. -/
def defaultBox : Box := ⟨0, 0, 1, 1⟩

/-- Placeholder track for out-of-range indices (never hit on valid input). -/
def defaultTrack : Track := ⟨0, defaultBox, 0, 0, 0, .Tentative, 0, 0, 0⟩

/-- Placeholder detection for out-of-range indices. -/
def defaultDetection : Detection := ⟨defaultBox, 1, 0⟩

/-- IoU-distance between the predicted box of track `ti` and the box of
detection `di` (indices into the per-frame input lists). -/
def pairCost (tracks : List Track) (dets : List Detection) (ti di : ℕ) : ℚ :=
  iouDist (tracks.getD ti defaultTrack).predictedBox
    (dets.getD di defaultDetection).box

/-- All candidate (track index, detection index) pairs from the still
unmatched tracks and detections whose cost is within the threshold. -/
def candidatePairs (tracks : List Track) (dets : List Detection) (maxDist : ℚ)
    (availT availD : List ℕ) : List (ℕ × ℕ) :=
  availT.flatMap fun ti =>
    (availD.filter fun di => decide (pairCost tracks dets ti di ≤ maxDist)).map
      fun di => (ti, di)

/-- Modelled from the spec: candidate ordering, lower cost first, ties broken
in favour of the track with the longer hit streak (section 4.2). -/
def betterPair (tracks : List Track) (dets : List Detection)
    (p q : ℕ × ℕ) : Bool :=
  decide (pairCost tracks dets p.1 p.2 < pairCost tracks dets q.1 q.2) ||
  (decide (pairCost tracks dets p.1 p.2 = pairCost tracks dets q.1 q.2) &&
   decide ((tracks.getD q.1 defaultTrack).hits <
     (tracks.getD p.1 defaultTrack).hits))

/-- Folding step used by `pickBest`: keep the better of the accumulator and
the next candidate. -/
def chooseBetter {α : Type} (f : α → α → Bool) (acc : Option α) (c : α) :
    Option α :=
  match acc with
  | none => some c
  | some b => if f c b then some c else some b

/-- The best candidate pair under `betterPair`, if any candidate exists. -/
def pickBest (tracks : List Track) (dets : List Detection) (maxDist : ℚ)
    (availT availD : List ℕ) : Option (ℕ × ℕ) :=
  (candidatePairs tracks dets maxDist availT availD).foldl
    (chooseBetter (betterPair tracks dets)) none

/-- Modelled from the spec: one assignment pass of the Association Engine:
repeatedly commit the best remaining within-threshold pair, removing both
endpoints, until no candidate remains (section 4.2).  Returns the matched
pairs together with the leftover track and detection indices. -/
def greedyMatch (tracks : List Track) (dets : List Detection) (maxDist : ℚ) :
    ℕ → List ℕ → List ℕ → List (ℕ × ℕ) × List ℕ × List ℕ
  | 0, availT, availD => ([], availT, availD)
  | fuel + 1, availT, availD =>
    match pickBest tracks dets maxDist availT availD with
    | none => ([], availT, availD)
    | some p =>
      let r := greedyMatch tracks dets maxDist fuel
        (availT.erase p.1) (availD.erase p.2)
      (p :: r.1, r.2.1, r.2.2)

/-- Modelled from the spec: the three output partitions of the Association
Engine (section 4.2). -/
structure AssocResult where
  matchedPairs : List (ℕ × ℕ)
  unmatchedTracks : List ℕ
  unmatchedDets : List ℕ
  deriving Repr, DecidableEq

/-- Whether detection index `di` is high-confidence (stage 1 material). -/
def isHighConf (cfg : Config) (dets : List Detection) (di : ℕ) : Bool :=
  decide (cfg.highConf ≤ (dets.getD di defaultDetection).confidence)

/-- Modelled from the spec: the two-stage, confidence-stratified Association
Engine (section 4.2).  Stage 1 matches high-confidence detections against
all live tracks; stage 2 matches the remaining low-confidence detections
against the tracks left unmatched by stage 1. -/
def associate (cfg : Config) (tracks : List Track) (dets : List Detection) :
    AssocResult :=
  let allT := List.range tracks.length
  let hi := (List.range dets.length).filter (isHighConf cfg dets)
  let lo := (List.range dets.length).filter fun di => !isHighConf cfg dets di
  let s1 := greedyMatch tracks dets cfg.maxDist allT.length allT hi
  let s2 := greedyMatch tracks dets cfg.maxDist s1.2.1.length s1.2.1 lo
  ⟨s1.1 ++ s2.1, s2.2.1, s1.2.2 ++ s2.2.2⟩

/-- Modelled from the spec: lifecycle and Motion Model update of a track
matched to a detection this frame (sections 4.1 and 4.3): the box is
corrected to the observation, velocity is re-estimated as the displacement
between successive accepted centers, the consecutive-hit counter grows, the
miss counter resets, and a Tentative track reaching the minimum hit count is
promoted to Confirmed while a Lost track returns to Confirmed. -/
def applyMatched (cfg : Config) (t : Track) (d : Detection) : Track :=
  { t with
    box := d.box,
    vx := (d.box.x_min + d.box.x_max) / 2 - (t.box.x_min + t.box.x_max) / 2,
    vy := (d.box.y_min + d.box.y_max) / 2 - (t.box.y_min + t.box.y_max) / 2,
    hits := t.hits + 1,
    misses := 0,
    age := t.age + 1,
    state :=
      match t.state with
      | .Tentative => if cfg.minHits ≤ t.hits + 1 then .Confirmed else .Tentative
      | .Confirmed => .Confirmed
      | .Lost => .Confirmed
      | .Removed => .Removed }

/-- Modelled from the spec: lifecycle update of a track with no match this
frame (section 4.3): prediction continues, the consecutive-hit counter
resets, a Tentative track is Removed immediately, a Confirmed track becomes
Lost, and a Lost track is Removed once the consecutive-miss count exceeds
the maximum. -/
def applyUnmatched (cfg : Config) (t : Track) : Track :=
  { t with
    box := t.predictedBox,
    hits := 0,
    misses := t.misses + 1,
    age := t.age + 1,
    state :=
      match t.state with
      | .Tentative => .Removed
      | .Confirmed => .Lost
      | .Lost => if cfg.maxMisses < t.misses + 1 then .Removed else .Lost
      | .Removed => .Removed }

/-- Modelled from the spec: a freshly created Tentative track for a
detection no existing track claims (section 4.3); the first update sets
velocity to zero (section 4.1). -/
def newTrack (id : ℕ) (d : Detection) : Track :=
  { id := id, box := d.box, vx := 0, vy := 0, classId := d.classId,
    state := .Tentative, hits := 1, misses := 0, age := 0 }

/-- Modelled from the spec: the Tracking Session state: the Track Set plus
the identifier counter (sections 3 and 4.4). -/
structure Session where
  tracks : List Track
  nextId : ℕ
  deriving Repr, DecidableEq

/-- The session state after `reset()`: no tracks, identifier counter 0. -/
def initSession : Session := ⟨[], 0⟩

/-- Modelled from the spec: the full outcome of submitting one frame to the
Session: the updated session, the rejected (malformed) detections reported
as per-detection invalid-input signals, the identifiers freshly allocated
this frame, and the Confirmed tracks emitted to the caller. -/
structure StepResult where
  session : Session
  rejected : List Detection
  newIds : List ℕ
  output : List Track
  deriving Repr, DecidableEq

/-- Modelled from the spec: one per-frame call of the Tracking Session
(sections 4.4 and 7): malformed detections are rejected at the boundary;
every live track's prediction is matched against the valid detections by the
Association Engine; matched tracks are updated, unmatched tracks miss the
frame, tracks whose transition lands in Removed are deleted from the Track
Set, and each unmatched detection founds a new Tentative track with a
freshly allocated identifier.  `stepMatched` is the list of matched tracks
after their update. -/
def stepMatched (cfg : Config) (s : Session) (valid : List Detection) :
    List Track :=
  (associate cfg s.tracks valid).matchedPairs.map fun p =>
    applyMatched cfg (s.tracks.getD p.1 defaultTrack)
      (valid.getD p.2 defaultDetection)

/-- The live tracks left unmatched this frame, after their miss update. -/
def stepMissed (cfg : Config) (s : Session) (valid : List Detection) :
    List Track :=
  (associate cfg s.tracks valid).unmatchedTracks.map fun ti =>
    applyUnmatched cfg (s.tracks.getD ti defaultTrack)

/-- The updated existing tracks that survive the frame: any track whose
lifecycle transition landed in Removed is deleted from the Track Set. -/
def stepSurvivors (cfg : Config) (s : Session) (valid : List Detection) :
    List Track :=
  (stepMatched cfg s valid ++ stepMissed cfg s valid).filter fun t =>
    !decide (t.state = .Removed)

/-- The new Tentative tracks founded by the unmatched detections, with
identifiers allocated consecutively from the session counter. -/
def stepCreated (cfg : Config) (s : Session) (valid : List Detection) :
    List Track :=
  (associate cfg s.tracks valid).unmatchedDets.enum.map fun p =>
    newTrack (s.nextId + p.1) (valid.getD p.2 defaultDetection)

/-- The session resulting from one frame: surviving updated tracks plus the
newly created ones; the identifier counter advances by the number of tracks
created. -/
def stepSession (cfg : Config) (s : Session) (valid : List Detection) :
    Session :=
  { tracks := stepSurvivors cfg s valid ++ stepCreated cfg s valid,
    nextId := s.nextId + (associate cfg s.tracks valid).unmatchedDets.length }

/-- One full per-frame call of the Session, bundling the updated session
with the rejected detections, the freshly allocated identifiers and the
emitted Confirmed tracks. -/
def sessionStep (cfg : Config) (s : Session) (dets : List Detection) :
    StepResult :=
  let valid := dets.filter Detection.valid
  { session := stepSession cfg s valid,
    rejected := dets.filter fun d => !(Detection.valid d),
    newIds := List.range' s.nextId
      (associate cfg s.tracks valid).unmatchedDets.length,
    output := (stepSurvivors cfg s valid ++ stepCreated cfg s valid).filter
      fun t => decide (t.state = .Confirmed) }

/-- The session state after the first `i` frames of a video have been
submitted, starting from `initSession`. -/
def stateAt (cfg : Config) (frames : List (List Detection)) (i : ℕ) : Session :=
  (frames.take i).foldl (fun s ds => (sessionStep cfg s ds).session) initSession

/-- The identifiers of the tracks currently in the Track Set. -/
def trackIds (s : Session) : List ℕ := s.tracks.map Track.id

/-- All identifiers allocated over a run, in allocation order. -/
def allocIds (cfg : Config) : Session → List (List Detection) → List ℕ
  | _, [] => []
  | s, ds :: rest =>
    (sessionStep cfg s ds).newIds ++
      allocIds cfg (sessionStep cfg s ds).session rest

/-- A sample configuration: high-confidence threshold 1, maximum
IoU-distance 1, three hits to confirm, thirty misses to remove. -/
def exConfig : Config := ⟨1, 1, 3, 30⟩

/-- A sample valid detection. -/
def exDetection : Detection := ⟨⟨0, 0, 2, 2⟩, 1, 3⟩

/-- A sample malformed detection: `x_min ≥ x_max`. -/
def exBadDetection : Detection := ⟨⟨2, 0, 0, 2⟩, 1, 3⟩

/-- A sample track already in the Removed state. -/
def exTrackRemoved : Track := ⟨5, ⟨0, 0, 1, 1⟩, 0, 0, 3, .Removed, 0, 3, 7⟩

/-- A sample confirmed track sitting at a degenerate point box. -/
def exTrackPoint : Track := ⟨1, ⟨0, 0, 0, 0⟩, 0, 0, 3, .Confirmed, 2, 0, 2⟩

/-- A sample detection at the same degenerate point box. -/
def exPointDetection : Detection := ⟨⟨0, 0, 0, 0⟩, 1, 3⟩

/-- The Track Set invariant: identifiers are pairwise distinct and all below
the allocation counter. -/
def sessionInv (s : Session) : Prop :=
  (s.tracks.map Track.id).Nodup ∧ ∀ t ∈ s.tracks, t.id < s.nextId

/-! ### Theorems -/

theorem extractLoop_ok (interval : ℤ) (hI : interval ≠ 0) :
    ∀ (n c e : ℕ) (s : List (ℕ × ℕ)),
      extractLoop interval n ⟨c, e, s⟩ =
        .ok ⟨c + n, e + (savedPure interval c e n).length,
             s ++ savedPure interval c e n⟩ := by
  intro n
  induction n with
  | zero => intro c e s; simp [extractLoop, savedPure]
  | succ n ih =>
    intro c e s
    rw [extractLoop]
    simp only [hI, if_false]
    by_cases hc : (c : ℤ) % interval = 0
    · rw [if_pos hc, ih (c + 1) (e + 1) (s ++ [(c, e)])]
      simp [savedPure, hc]
      omega
    · rw [if_neg hc, ih (c + 1) e s]
      simp [savedPure, hc]
      omega

theorem mem_savedPure (interval : ℤ) : ∀ (n c e i : ℕ),
    (∃ k, (i, k) ∈ savedPure interval c e n) ↔
      c ≤ i ∧ i < c + n ∧ (i : ℤ) % interval = 0 := by
  intro n
  induction n with
  | zero =>
    intro c e i
    simp [savedPure]
    omega
  | succ n ih =>
    intro c e i
    rw [savedPure]
    by_cases hc : (c : ℤ) % interval = 0
    · rw [if_pos hc]
      simp only [List.mem_cons, Prod.mk.injEq]
      constructor
      · rintro ⟨k, hk | hk⟩
        · obtain ⟨rfl, rfl⟩ := hk
          exact ⟨le_refl _, by omega, hc⟩
        · have h := (ih (c + 1) (e + 1) i).mp ⟨k, hk⟩
          exact ⟨by omega, by omega, h.2.2⟩
      · rintro ⟨h1, h2, h3⟩
        by_cases hi : i = c
        · exact ⟨e, Or.inl ⟨hi, rfl⟩⟩
        · obtain ⟨k, hk⟩ := (ih (c + 1) (e + 1) i).mpr ⟨by omega, by omega, h3⟩
          exact ⟨k, Or.inr hk⟩
    · rw [if_neg hc]
      constructor
      · rintro ⟨k, hk⟩
        have h := (ih (c + 1) e i).mp ⟨k, hk⟩
        exact ⟨by omega, by omega, h.2.2⟩
      · rintro ⟨h1, h2, h3⟩
        have hi : i ≠ c := by
          rintro rfl
          exact hc h3
        exact (ih (c + 1) e i).mpr ⟨by omega, by omega, h3⟩

theorem savedPure_map_snd (interval : ℤ) : ∀ (n c e : ℕ),
    (savedPure interval c e n).map Prod.snd =
      List.range' e (savedPure interval c e n).length := by
  intro n
  induction n with
  | zero => intro c e; simp [savedPure]
  | succ n ih =>
    intro c e
    rw [savedPure]
    by_cases hc : (c : ℤ) % interval = 0
    · rw [if_pos hc]
      simp only [List.map_cons, List.length_cons, List.range'_succ]
      rw [ih (c + 1) (e + 1)]
    · rw [if_neg hc]
      exact ih (c + 1) e

theorem savedPure_fst_ge (interval : ℤ) : ∀ (n c e : ℕ),
    ∀ p ∈ savedPure interval c e n, c ≤ p.1 := by
  intro n
  induction n with
  | zero => intro c e p hp; simp [savedPure] at hp
  | succ n ih =>
    intro c e p hp
    rw [savedPure] at hp
    by_cases hc : (c : ℤ) % interval = 0
    · rw [if_pos hc] at hp
      rcases List.mem_cons.mp hp with h | h
      · subst h; exact le_refl c
      · exact le_trans (by omega) (ih (c + 1) (e + 1) p h)
    · rw [if_neg hc] at hp
      exact le_trans (by omega) (ih (c + 1) e p hp)

theorem savedPure_pairwise_fst (interval : ℤ) : ∀ (n c e : ℕ),
    (savedPure interval c e n).Pairwise (fun p q => p.1 < q.1) := by
  intro n
  induction n with
  | zero => intro c e; simp [savedPure]
  | succ n ih =>
    intro c e
    rw [savedPure]
    by_cases hc : (c : ℤ) % interval = 0
    · rw [if_pos hc]
      refine List.Pairwise.cons ?_ (ih (c + 1) (e + 1))
      intro q hq
      have := savedPure_fst_ge interval n (c + 1) (e + 1) q hq
      omega
    · rw [if_neg hc]
      exact ih (c + 1) e

/-- C1: `frame_interval = int(original_frame_rate / frame_rate)` truncates the
division, so the achieved sampling rate (frames saved per second of video)
equals the requested `frame_rate` exactly when the source frame rate is an
integer multiple of the requested rate, and differs from it otherwise. -/
theorem achieved_rate_exact_iff_divisible (ofr fr : ℚ)
    (hfr : 0 < fr) (hle : fr ≤ ofr) :
    frame_interval ofr fr = ⌊ofr / fr⌋ ∧
    (achievedRate ofr fr = fr ↔ (ofr / fr).den = 1) := by
  have h0 : (0:ℚ) ≤ ofr / fr := div_nonneg (le_trans hfr.le hle) hfr.le
  have hfi : frame_interval ofr fr = ⌊ofr / fr⌋ := by
    rw [frame_interval, pyInt, if_pos h0]
  have h1 : (1:ℚ) ≤ ofr / fr := (one_le_div hfr).mpr hle
  have hfl1 : (1:ℤ) ≤ ⌊ofr / fr⌋ := by
    rw [Int.le_floor]
    exact_mod_cast h1
  have hflne : ((⌊ofr / fr⌋ : ℤ) : ℚ) ≠ 0 := by
    have h2 : (0:ℤ) < ⌊ofr / fr⌋ := by omega
    exact_mod_cast h2.ne'
  have hfrne : fr ≠ 0 := hfr.ne'
  have hofrne : ofr ≠ 0 := (lt_of_lt_of_le hfr hle).ne'
  refine ⟨hfi, ?_, ?_⟩
  · intro hach
    rw [achievedRate, hfi] at hach
    have hr : ofr / fr = ((⌊ofr / fr⌋ : ℤ) : ℚ) := by
      conv_lhs => rw [(div_eq_iff hflne).mp hach, mul_comm]
      rw [mul_div_assoc, div_self hfrne, mul_one]
    rw [hr]
    exact Rat.den_intCast _
  · intro hden
    have hnum : (((ofr / fr).num : ℤ) : ℚ) = ofr / fr := Rat.den_eq_one_iff _ |>.mp hden
    have hfl : ⌊ofr / fr⌋ = (ofr / fr).num := by
      conv_lhs => rw [← hnum]
      exact Int.floor_intCast _
    rw [achievedRate, hfi, hfl, hnum]
    rw [div_div_eq_mul_div, mul_comm ofr fr, mul_div_assoc, div_self hofrne,
      mul_one]

/-- Witness for C1 at `original_frame_rate = 30`, `frame_rate = 4`
(a non-integer ratio, 30/4 = 7.5). -/
theorem achieved_rate_exact_iff_divisible_witness :
    (0:ℚ) < 4 ∧ (4:ℚ) ≤ 30 ∧
    (frame_interval 30 4 = ⌊(30:ℚ) / 4⌋ ∧
     (achievedRate 30 4 = 4 ↔ ((30:ℚ) / 4).den = 1)) :=
  ⟨by decide, by decide,
   achieved_rate_exact_iff_divisible 30 4 (by decide) (by decide)⟩

/-- C2: when the run of `extract_frames_from_video` over an `n`-frame stream
succeeds, the saved frames are exactly those whose index `i` satisfies
`i mod floor(original_frame_rate / frame_rate) = 0`, and frame 0 is saved
whenever at least one frame is decoded. -/
theorem frames_saved_iff_index_multiple (ofr fr : ℚ)
    (hfr : 0 < fr) (hofr : 0 ≤ ofr) (n : ℕ) (l : List (ℕ × ℕ))
    (h : extract_frames_from_video (frame_interval ofr fr) n = .ok l) :
    frame_interval ofr fr = ⌊ofr / fr⌋ ∧
    (∀ i : ℕ, (∃ k, (i, k) ∈ l) ↔ i < n ∧ (i : ℤ) % ⌊ofr / fr⌋ = 0) ∧
    (0 < n → ((0:ℕ), (0:ℕ)) ∈ l) := by
  have h0 : (0:ℚ) ≤ ofr / fr := div_nonneg hofr hfr.le
  have hfi : frame_interval ofr fr = ⌊ofr / fr⌋ := by
    rw [frame_interval, pyInt, if_pos h0]
  refine ⟨hfi, ?_⟩
  rw [← hfi]
  by_cases hI : frame_interval ofr fr = 0
  · rw [hI] at h ⊢
    cases n with
    | zero =>
      rw [extract_frames_from_video] at h
      simp [extractLoop, Except.map] at h
      subst h
      simp
    | succ m =>
      rw [extract_frames_from_video] at h
      simp [extractLoop, Except.map] at h
  · have hok := extractLoop_ok (frame_interval ofr fr) hI n 0 0 []
    rw [extract_frames_from_video, hok] at h
    simp [Except.map] at h
    subst h
    constructor
    · intro i
      rw [mem_savedPure]
      constructor
      · rintro ⟨-, h2, h3⟩
        exact ⟨by omega, h3⟩
      · rintro ⟨h2, h3⟩
        exact ⟨Nat.zero_le _, by omega, h3⟩
    · intro hn
      obtain ⟨m, rfl⟩ := Nat.exists_eq_succ_of_ne_zero hn.ne'
      rw [savedPure]
      rw [if_pos (by simp : ((0:ℕ) : ℤ) % frame_interval ofr fr = 0)]
      exact List.mem_cons_self _ _

theorem frame_interval_thirty_ten : frame_interval 30 10 = 3 := by
  rw [frame_interval, pyInt, if_pos (by norm_num : (0:ℚ) ≤ 30 / 10)]
  norm_num

/-- Witness for C2 at a 30 fps video sampled at 10 fps over 7 frames:
frames 0, 3, 6 are saved, numbered 0, 1, 2. -/
theorem frames_saved_iff_index_multiple_witness :
    (0:ℚ) < 10 ∧ (0:ℚ) ≤ 30 ∧
    extract_frames_from_video (frame_interval 30 10) 7 =
      .ok [(0, 0), (3, 1), (6, 2)] ∧
    (frame_interval 30 10 = ⌊(30:ℚ) / 10⌋ ∧
     (∀ i : ℕ, (∃ k, (i, k) ∈ [((0:ℕ), (0:ℕ)), (3, 1), (6, 2)]) ↔
        i < 7 ∧ (i : ℤ) % ⌊(30:ℚ) / 10⌋ = 0) ∧
     (0 < 7 → ((0:ℕ), (0:ℕ)) ∈ [((0:ℕ), (0:ℕ)), (3, 1), (6, 2)])) := by
  have hrun : extract_frames_from_video (frame_interval 30 10) 7 =
      .ok [(0, 0), (3, 1), (6, 2)] := by
    rw [frame_interval_thirty_ten]
    rfl
  exact ⟨by decide, by decide, hrun,
    frames_saved_iff_index_multiple 30 10 (by decide) (by decide) 7 _ hrun⟩

/-- C3: when the requested rate exceeds the source rate (which includes a
decoder-reported rate of 0), `frame_interval` is 0 and the first evaluation
of `frame_count % frame_interval` raises a division-by-zero error, so the
run fails on the first decoded frame without saving anything. -/
theorem zero_interval_division_error (ofr fr : ℚ) (hofr : 0 ≤ ofr)
    (hfr : 0 < fr) (hlt : ofr < fr) (n : ℕ) (hn : 0 < n) :
    frame_interval ofr fr = 0 ∧
    extract_frames_from_video (frame_interval ofr fr) n = .error () := by
  have hr0 : (0:ℚ) ≤ ofr / fr := div_nonneg hofr hfr.le
  have hr1 : ofr / fr < 1 := (div_lt_one hfr).mpr hlt
  have hfi : frame_interval ofr fr = 0 := by
    rw [frame_interval, pyInt, if_pos hr0]
    exact Int.floor_eq_zero_iff.mpr (Set.mem_Ico.mpr ⟨hr0, hr1⟩)
  refine ⟨hfi, ?_⟩
  obtain ⟨m, rfl⟩ := Nat.exists_eq_succ_of_ne_zero hn.ne'
  rw [hfi, extract_frames_from_video]
  simp [extractLoop, Except.map]

/-- Witness for C3: a 10 fps video asked to be sampled at 30 fps, one
decoded frame. -/
theorem zero_interval_division_error_witness :
    (0:ℚ) ≤ 10 ∧ (0:ℚ) < 30 ∧ (10:ℚ) < 30 ∧ 0 < 1 ∧
    (frame_interval 10 30 = 0 ∧
     extract_frames_from_video (frame_interval 10 30) 1 = .error ()) :=
  ⟨by decide, by decide, by decide, by decide,
   zero_interval_division_error 10 30 (by decide) (by decide) (by decide)
     1 (by decide)⟩

/-- C10: on any successful run, the filename numbers of the saved frames are
exactly 0, 1, 2, ... in save order (consecutive, no gaps), and the saved
frame indices are strictly increasing, so numbering order equals temporal
order. -/
theorem saved_numbering_consecutive (interval : ℤ) (n : ℕ) (l : List (ℕ × ℕ))
    (h : extract_frames_from_video interval n = .ok l) :
    l.map Prod.snd = List.range l.length ∧
    (l.map Prod.fst).Pairwise (· < ·) := by
  by_cases hI : interval = 0
  · subst hI
    cases n with
    | zero =>
      rw [extract_frames_from_video] at h
      simp [extractLoop, Except.map] at h
      subst h
      simp
    | succ m =>
      rw [extract_frames_from_video] at h
      simp [extractLoop, Except.map] at h
  · have hok := extractLoop_ok interval hI n 0 0 []
    rw [extract_frames_from_video, hok] at h
    simp [Except.map] at h
    subst h
    constructor
    · rw [savedPure_map_snd, List.range_eq_range']
    · rw [List.pairwise_map]
      exact savedPure_pairwise_fst interval n 0 0

/-- Witness for C10: interval 2 over 5 frames saves frames 0, 2, 4 numbered
0, 1, 2. -/
theorem saved_numbering_consecutive_witness :
    extract_frames_from_video 2 5 = .ok [(0, 0), (2, 1), (4, 2)] ∧
    ([((0:ℕ), (0:ℕ)), (2, 1), (4, 2)].map Prod.snd =
      List.range [((0:ℕ), (0:ℕ)), (2, 1), (4, 2)].length ∧
     ([((0:ℕ), (0:ℕ)), (2, 1), (4, 2)].map Prod.fst).Pairwise (· < ·)) :=
  ⟨rfl, saved_numbering_consecutive 2 5 _ rfl⟩

theorem chooseBetter_eq_some {α : Type} (f : α → α → Bool)
    (acc : Option α) (c p : α) (h : chooseBetter f acc c = some p) :
    p = c ∨ acc = some p := by
  cases acc with
  | none =>
    simp [chooseBetter] at h
    exact Or.inl h.symm
  | some b =>
    by_cases hf : f c b
    · simp [chooseBetter, hf] at h
      exact Or.inl h.symm
    · simp [chooseBetter, hf] at h
      exact Or.inr (by rw [h])

theorem foldl_chooseBetter_mem {α : Type} (f : α → α → Bool) :
    ∀ (l : List α) (init : Option α) (p : α),
      l.foldl (chooseBetter f) init = some p → p ∈ l ∨ init = some p := by
  intro l
  induction l with
  | nil => intro init p h; exact Or.inr h
  | cons a l ih =>
    intro init p h
    rw [List.foldl_cons] at h
    rcases ih (chooseBetter f init a) p h with hm | he
    · exact Or.inl (List.mem_cons_of_mem _ hm)
    · rcases chooseBetter_eq_some f init a p he with rfl | hi
      · exact Or.inl (List.mem_cons_self _ _)
      · exact Or.inr hi

theorem mem_candidatePairs (tracks : List Track) (dets : List Detection)
    (maxDist : ℚ) (availT availD : List ℕ) (p : ℕ × ℕ) :
    p ∈ candidatePairs tracks dets maxDist availT availD ↔
      p.1 ∈ availT ∧ p.2 ∈ availD ∧
        pairCost tracks dets p.1 p.2 ≤ maxDist := by
  obtain ⟨ti, di⟩ := p
  simp only [candidatePairs, List.mem_flatMap, List.mem_map, List.mem_filter,
    decide_eq_true_eq, Prod.mk.injEq]
  constructor
  · rintro ⟨a, ha, b, ⟨hb, hc⟩, rfl, rfl⟩
    exact ⟨ha, hb, hc⟩
  · rintro ⟨ha, hb, hc⟩
    exact ⟨ti, ha, di, ⟨hb, hc⟩, rfl, rfl⟩

theorem pickBest_mem (tracks : List Track) (dets : List Detection)
    (maxDist : ℚ) (availT availD : List ℕ) (p : ℕ × ℕ)
    (h : pickBest tracks dets maxDist availT availD = some p) :
    p.1 ∈ availT ∧ p.2 ∈ availD ∧ pairCost tracks dets p.1 p.2 ≤ maxDist := by
  rcases foldl_chooseBetter_mem (betterPair tracks dets) _ none p h with hm | he
  · exact (mem_candidatePairs tracks dets maxDist availT availD p).mp hm
  · cases he

theorem greedyMatch_perm (tracks : List Track) (dets : List Detection)
    (maxDist : ℚ) : ∀ (fuel : ℕ) (availT availD : List ℕ),
    ((greedyMatch tracks dets maxDist fuel availT availD).1.map Prod.fst ++
      (greedyMatch tracks dets maxDist fuel availT availD).2.1).Perm availT ∧
    ((greedyMatch tracks dets maxDist fuel availT availD).1.map Prod.snd ++
      (greedyMatch tracks dets maxDist fuel availT availD).2.2).Perm availD := by
  intro fuel
  induction fuel with
  | zero => intro availT availD; simp [greedyMatch]
  | succ fuel ih =>
    intro availT availD
    cases hpick : pickBest tracks dets maxDist availT availD with
    | none => simp [greedyMatch, hpick]
    | some p =>
      obtain ⟨h1, h2, -⟩ := pickBest_mem tracks dets maxDist availT availD p hpick
      obtain ⟨ihT, ihD⟩ := ih (availT.erase p.1) (availD.erase p.2)
      constructor
      · simp only [greedyMatch, hpick, List.map_cons, List.cons_append]
        exact (ihT.cons p.1).trans (List.perm_cons_erase h1).symm
      · simp only [greedyMatch, hpick, List.map_cons, List.cons_append]
        exact (ihD.cons p.2).trans (List.perm_cons_erase h2).symm

theorem greedyMatch_cost (tracks : List Track) (dets : List Detection)
    (maxDist : ℚ) : ∀ (fuel : ℕ) (availT availD : List ℕ) (p : ℕ × ℕ),
    p ∈ (greedyMatch tracks dets maxDist fuel availT availD).1 →
    pairCost tracks dets p.1 p.2 ≤ maxDist := by
  intro fuel
  induction fuel with
  | zero => intro availT availD p hp; simp [greedyMatch] at hp
  | succ fuel ih =>
    intro availT availD p hp
    cases hpick : pickBest tracks dets maxDist availT availD with
    | none => simp [greedyMatch, hpick] at hp
    | some q =>
      simp only [greedyMatch, hpick, List.mem_cons] at hp
      rcases hp with rfl | hp
      · exact (pickBest_mem tracks dets maxDist availT availD p hpick).2.2
      · exact ih (availT.erase q.1) (availD.erase q.2) p hp

theorem candidatePairs_nil_dets (tracks : List Track) (dets : List Detection)
    (maxDist : ℚ) (availT : List ℕ) :
    candidatePairs tracks dets maxDist availT [] = [] := by
  induction availT with
  | nil => rfl
  | cons a l ih =>
    simp only [candidatePairs, List.flatMap_cons, List.filter_nil,
      List.map_nil, List.nil_append] at ih ⊢
    exact ih

theorem greedyMatch_nil_dets (tracks : List Track) (dets : List Detection)
    (maxDist : ℚ) (fuel : ℕ) (availT : List ℕ) :
    greedyMatch tracks dets maxDist fuel availT [] = ([], availT, []) := by
  cases fuel with
  | zero => rfl
  | succ fuel =>
    have hnone : pickBest tracks dets maxDist availT [] = none := by
      rw [pickBest, candidatePairs_nil_dets]
      rfl
    simp [greedyMatch, hnone]

theorem perm_exchange {α : Type _} {u v w z : List α} :
    (u ++ v ++ (w ++ z)).Perm (u ++ w ++ (v ++ z)) := by
  rw [List.append_assoc u v, List.append_assoc u w]
  refine List.Perm.append_left u ?_
  rw [← List.append_assoc v, ← List.append_assoc w]
  exact List.perm_append_comm.append_right z

theorem associate_partition_perm (cfg : Config) (tracks : List Track)
    (dets : List Detection) :
    ((associate cfg tracks dets).matchedPairs.map Prod.fst ++
      (associate cfg tracks dets).unmatchedTracks).Perm
      (List.range tracks.length) ∧
    ((associate cfg tracks dets).matchedPairs.map Prod.snd ++
      (associate cfg tracks dets).unmatchedDets).Perm
      (List.range dets.length) := by
  set allT := List.range tracks.length with hallT
  set hi := (List.range dets.length).filter (isHighConf cfg dets) with hhi
  set lo := (List.range dets.length).filter
    (fun di => !isHighConf cfg dets di) with hlo
  set s1 := greedyMatch tracks dets cfg.maxDist allT.length allT hi with hs1
  set s2 := greedyMatch tracks dets cfg.maxDist s1.2.1.length s1.2.1 lo with hs2
  have hassoc : associate cfg tracks dets =
      ⟨s1.1 ++ s2.1, s2.2.1, s1.2.2 ++ s2.2.2⟩ := rfl
  obtain ⟨hT1, hD1⟩ :=
    greedyMatch_perm tracks dets cfg.maxDist allT.length allT hi
  obtain ⟨hT2, hD2⟩ :=
    greedyMatch_perm tracks dets cfg.maxDist s1.2.1.length s1.2.1 lo
  rw [← hs1] at hT1 hD1
  rw [← hs2] at hT2 hD2
  have hpermT : ((s1.1 ++ s2.1).map Prod.fst ++ s2.2.1).Perm allT := by
    rw [List.map_append, List.append_assoc]
    exact ((hT2.append_left (s1.1.map Prod.fst)).trans hT1)
  have hpermD : ((s1.1 ++ s2.1).map Prod.snd ++ (s1.2.2 ++ s2.2.2)).Perm
      (List.range dets.length) := by
    rw [List.map_append]
    refine (perm_exchange.trans ?_)
    refine (hD1.append hD2).trans ?_
    rw [hhi, hlo]
    exact List.filter_append_perm _ _
  rw [hassoc]
  exact ⟨hpermT, hpermD⟩

/-- C5: after every Association Engine call the result is a 1:1 bipartite
matching: the matched track indices together with the unmatched track
indices are a permutation of (and hence cover, without duplication or
overlap) all input tracks, and likewise for detections. -/
theorem association_one_to_one (cfg : Config) (tracks : List Track)
    (dets : List Detection) :
    ((associate cfg tracks dets).matchedPairs.map Prod.fst ++
      (associate cfg tracks dets).unmatchedTracks).Perm
      (List.range tracks.length) ∧
    ((associate cfg tracks dets).matchedPairs.map Prod.snd ++
      (associate cfg tracks dets).unmatchedDets).Perm
      (List.range dets.length) ∧
    ((associate cfg tracks dets).matchedPairs.map Prod.fst ++
      (associate cfg tracks dets).unmatchedTracks).Nodup ∧
    ((associate cfg tracks dets).matchedPairs.map Prod.snd ++
      (associate cfg tracks dets).unmatchedDets).Nodup := by
  obtain ⟨h1, h2⟩ := associate_partition_perm cfg tracks dets
  exact ⟨h1, h2, h1.nodup_iff.mpr (List.nodup_range _),
    h2.nodup_iff.mpr (List.nodup_range _)⟩

/-- C7: no matched pair produced by the Association Engine has IoU-distance
`1 - IoU(predicted_box, detection_box)` above the configured maximum. -/
theorem association_within_threshold (cfg : Config) (tracks : List Track)
    (dets : List Detection) (p : ℕ × ℕ)
    (hp : p ∈ (associate cfg tracks dets).matchedPairs) :
    iouDist (tracks.getD p.1 defaultTrack).predictedBox
      (dets.getD p.2 defaultDetection).box ≤ cfg.maxDist := by
  have hcost : pairCost tracks dets p.1 p.2 ≤ cfg.maxDist := by
    rcases List.mem_append.mp hp with h | h
    · exact greedyMatch_cost tracks dets cfg.maxDist _ _ _ p h
    · exact greedyMatch_cost tracks dets cfg.maxDist _ _ _ p h
  simpa [pairCost] using hcost

/-- C9: with no live tracks every detection comes back unmatched, and with
no detections every live track comes back unmatched; in both cases the
Association Engine returns a full partition rather than failing. -/
theorem association_empty_cases (cfg : Config) (tracks : List Track)
    (dets : List Detection) :
    ((associate cfg [] dets).matchedPairs = [] ∧
     (associate cfg [] dets).unmatchedTracks = [] ∧
     (associate cfg [] dets).unmatchedDets.Perm (List.range dets.length)) ∧
    ((associate cfg tracks []).matchedPairs = [] ∧
     (associate cfg tracks []).unmatchedDets = [] ∧
     (associate cfg tracks []).unmatchedTracks = List.range tracks.length) := by
  constructor
  · refine ⟨rfl, rfl, ?_⟩
    show (((List.range dets.length).filter (isHighConf cfg dets)) ++
      ((List.range dets.length).filter
        (fun di => !isHighConf cfg dets di))).Perm (List.range dets.length)
    exact List.filter_append_perm _ _
  · simp [associate, greedyMatch_nil_dets]

/-- C6: the Removed state is terminal: a Removed track stays Removed under
both lifecycle transition functions, and removal causes deletion, so no
track held in the Track Set after any frame is in the Removed state. -/
theorem removed_state_terminal (cfg : Config) :
    (∀ (t : Track) (d : Detection), t.state = .Removed →
      (applyMatched cfg t d).state = .Removed ∧
      (applyUnmatched cfg t).state = .Removed) ∧
    (∀ (s : Session) (dets : List Detection),
      ∀ t ∈ (sessionStep cfg s dets).session.tracks,
        t.state ≠ .Removed) := by
  constructor
  · intro t d ht
    constructor
    · simp [applyMatched, ht]
    · simp [applyUnmatched, ht]
  · intro s dets t ht
    have ht' : t ∈ stepSurvivors cfg s (dets.filter Detection.valid) ++
        stepCreated cfg s (dets.filter Detection.valid) := ht
    rcases List.mem_append.mp ht' with h | h
    · have hf := List.of_mem_filter h
      simpa using hf
    · obtain ⟨p, hp, rfl⟩ := List.mem_map.mp h
      simp [newTrack]

/-- Witness for C6: a Removed track stays Removed under both transitions,
and a concrete frame's resulting Track Set contains no Removed track. -/
theorem removed_state_terminal_witness :
    (exTrackRemoved.state = .Removed ∧
     ((applyMatched exConfig exTrackRemoved exDetection).state = .Removed ∧
      (applyUnmatched exConfig exTrackRemoved).state = .Removed)) ∧
    (newTrack 0 exDetection ∈
      (sessionStep exConfig initSession [exDetection]).session.tracks ∧
     (newTrack 0 exDetection).state ≠ .Removed) := by
  have hmem : newTrack 0 exDetection ∈
      (sessionStep exConfig initSession [exDetection]).session.tracks := by
    decide
  exact ⟨⟨rfl, (removed_state_terminal exConfig).1 exTrackRemoved exDetection
      rfl⟩,
    hmem, (removed_state_terminal exConfig).2 initSession [exDetection] _ hmem⟩

/-- C8: a malformed detection is rejected at the Session boundary and
reported per detection, the valid detections of the frame are processed
exactly as if the malformed ones were never submitted (the frame and the
session are not aborted), and a frame of only valid detections rejects
nothing. -/
theorem malformed_rejected_at_boundary (cfg : Config) (s : Session)
    (dets : List Detection) :
    (sessionStep cfg s dets).rejected =
      dets.filter (fun d => !(Detection.valid d)) ∧
    (∀ d ∈ (sessionStep cfg s dets).rejected, Detection.valid d = false) ∧
    (sessionStep cfg s dets).session =
      (sessionStep cfg s (dets.filter Detection.valid)).session ∧
    (sessionStep cfg s (dets.filter Detection.valid)).rejected = [] := by
  have hff : (dets.filter Detection.valid).filter Detection.valid =
      dets.filter Detection.valid :=
    List.filter_eq_self.mpr fun a ha => List.of_mem_filter ha
  refine ⟨rfl, ?_, ?_, ?_⟩
  · intro d hd
    have := List.of_mem_filter hd
    simpa using this
  · show stepSession cfg s (dets.filter Detection.valid) =
      stepSession cfg s ((dets.filter Detection.valid).filter Detection.valid)
    rw [hff]
  · show (dets.filter Detection.valid).filter
        (fun d => !(Detection.valid d)) = []
    rw [List.filter_eq_nil_iff]
    intro a ha
    have := List.of_mem_filter ha
    simp [this]

/-- Witness for C8: one valid and one malformed detection submitted
together: exactly the malformed one is rejected, and the session evolves as
if only the valid one had been submitted. -/
theorem malformed_rejected_at_boundary_witness :
    exBadDetection ∈
      (sessionStep exConfig initSession [exDetection, exBadDetection]).rejected ∧
    Detection.valid exBadDetection = false ∧
    (sessionStep exConfig initSession [exDetection, exBadDetection]).session =
      (sessionStep exConfig initSession
        ([exDetection, exBadDetection].filter Detection.valid)).session := by
  have hmem : exBadDetection ∈
      (sessionStep exConfig initSession
        [exDetection, exBadDetection]).rejected := by
    decide
  exact ⟨hmem,
    (malformed_rejected_at_boundary exConfig initSession
      [exDetection, exBadDetection]).2.1 exBadDetection hmem,
    (malformed_rejected_at_boundary exConfig initSession
      [exDetection, exBadDetection]).2.2.1⟩

theorem exPairCost_eq :
    pairCost [exTrackPoint] [exPointDetection] 0 0 = 1 := by
  norm_num [pairCost, iouDist, iou, overlapLen, Box.area, Track.predictedBox,
    exTrackPoint, exPointDetection]

theorem exPickBest_eq :
    pickBest [exTrackPoint] [exPointDetection] 1 [0] [0] = some (0, 0) := by
  have hc : candidatePairs [exTrackPoint] [exPointDetection] 1 [0] [0] =
      [(0, 0)] := by
    simp [candidatePairs, exPairCost_eq]
  rw [pickBest, hc]
  rfl

theorem exAssociate_eq :
    (associate exConfig [exTrackPoint] [exPointDetection]).matchedPairs =
      [(0, 0)] := by
  have hhi : [0].filter (isHighConf exConfig [exPointDetection]) = [0] := by
    decide
  have hlo : [0].filter
      (fun di => !isHighConf exConfig [exPointDetection] di) = [] := by
    decide
  have h1 : greedyMatch [exTrackPoint] [exPointDetection] 1 1 [0] [0] =
      ([(0, 0)], [], []) := by
    simp only [greedyMatch, exPickBest_eq]
    simp [greedyMatch]
  have hmd : exConfig.maxDist = 1 := rfl
  have hr : List.range 1 = [0] := by decide
  simp [associate, hmd, hhi, hlo, h1, hr, greedyMatch, exPickBest_eq]

/-- Witness for C7: a concrete frame in which track 0 is matched to
detection 0 and the matched pair's IoU-distance is within the maximum. -/
theorem association_within_threshold_witness :
    ((0 : ℕ), (0 : ℕ)) ∈
      (associate exConfig [exTrackPoint] [exPointDetection]).matchedPairs ∧
    iouDist ([exTrackPoint].getD 0 defaultTrack).predictedBox
      (([exPointDetection].getD 0 defaultDetection).box) ≤ exConfig.maxDist := by
  have hp : ((0 : ℕ), (0 : ℕ)) ∈
      (associate exConfig [exTrackPoint] [exPointDetection]).matchedPairs := by
    rw [exAssociate_eq]
    exact List.mem_singleton.mpr rfl
  exact ⟨hp, association_within_threshold exConfig [exTrackPoint]
    [exPointDetection] (0, 0) hp⟩

theorem applyMatched_id (cfg : Config) (t : Track) (d : Detection) :
    (applyMatched cfg t d).id = t.id := rfl

theorem applyUnmatched_id (cfg : Config) (t : Track) :
    (applyUnmatched cfg t).id = t.id := rfl

theorem range_map_getD {α : Type _} (xs : List α) (d : α) :
    (List.range xs.length).map (fun i => xs.getD i d) = xs := by
  induction xs with
  | nil => rfl
  | cons a l ih =>
    rw [List.length_cons, List.range_succ_eq_map, List.map_cons, List.map_map]
    exact congrArg (a :: ·) ih

theorem step_ids_perm (cfg : Config) (s : Session) (valid : List Detection) :
    ((stepMatched cfg s valid ++ stepMissed cfg s valid).map Track.id).Perm
      (s.tracks.map Track.id) := by
  have hm : (stepMatched cfg s valid).map Track.id =
      (associate cfg s.tracks valid).matchedPairs.map
        (fun p => (s.tracks.getD p.1 defaultTrack).id) := by
    rw [stepMatched, List.map_map]
    rfl
  have hu : (stepMissed cfg s valid).map Track.id =
      (associate cfg s.tracks valid).unmatchedTracks.map
        (fun ti => (s.tracks.getD ti defaultTrack).id) := by
    rw [stepMissed, List.map_map]
    rfl
  have hperm := (associate_partition_perm cfg s.tracks valid).1
  have hmap := hperm.map (fun i => (s.tracks.getD i defaultTrack).id)
  rw [List.map_append, List.map_map] at hmap
  have hrange : (List.range s.tracks.length).map
      (fun i => (s.tracks.getD i defaultTrack).id) = s.tracks.map Track.id := by
    have h1 : (List.range s.tracks.length).map
        (fun i => (s.tracks.getD i defaultTrack).id) =
        ((List.range s.tracks.length).map
          (fun i => s.tracks.getD i defaultTrack)).map Track.id := by
      rw [List.map_map]
      rfl
    rw [h1, range_map_getD]
  rw [hrange] at hmap
  rw [List.map_append, hm, hu]
  exact hmap

theorem stepCreated_ids (cfg : Config) (s : Session) (valid : List Detection) :
    (stepCreated cfg s valid).map Track.id =
      List.range' s.nextId
        (associate cfg s.tracks valid).unmatchedDets.length := by
  rw [stepCreated, List.map_map]
  have h1 : (Track.id ∘ fun p : ℕ × ℕ =>
      newTrack (s.nextId + p.1) (valid.getD p.2 defaultDetection)) =
      fun p : ℕ × ℕ => s.nextId + p.1 := rfl
  rw [h1]
  have h2 : (fun p : ℕ × ℕ => s.nextId + p.1) =
      ((fun i => s.nextId + i) ∘ Prod.fst) := rfl
  rw [h2, ← List.map_map, List.enum_map_fst, List.range'_eq_map_range]

theorem survivors_ids_sublist (cfg : Config) (s : Session)
    (valid : List Detection) :
    ((stepSurvivors cfg s valid).map Track.id).Sublist
      ((stepMatched cfg s valid ++ stepMissed cfg s valid).map Track.id) :=
  (List.filter_sublist _).map Track.id

theorem survivors_id_mem (cfg : Config) (s : Session) (valid : List Detection)
    (t : Track) (ht : t ∈ stepSurvivors cfg s valid) :
    t.id ∈ s.tracks.map Track.id := by
  have h1 : t.id ∈ (stepSurvivors cfg s valid).map Track.id :=
    List.mem_map_of_mem Track.id ht
  have h2 := (survivors_ids_sublist cfg s valid).mem h1
  exact (step_ids_perm cfg s valid).mem_iff.mp h2

theorem sessionInv_step (cfg : Config) (s : Session) (valid : List Detection)
    (h : sessionInv s) :
    sessionInv (stepSession cfg s valid) ∧
    s.nextId ≤ (stepSession cfg s valid).nextId ∧
    (∀ t ∈ (stepSession cfg s valid).tracks,
      t.id < s.nextId → t.id ∈ s.tracks.map Track.id) := by
  obtain ⟨hnd, hlt⟩ := h
  have hsurvlt : ∀ t ∈ stepSurvivors cfg s valid, t.id < s.nextId := by
    intro t ht
    obtain ⟨u, hu, hid⟩ := List.mem_map.mp (survivors_id_mem cfg s valid t ht)
    exact hid ▸ hlt u hu
  have hcreatedge : ∀ t ∈ stepCreated cfg s valid, s.nextId ≤ t.id ∧
      t.id < s.nextId + (associate cfg s.tracks valid).unmatchedDets.length := by
    intro t ht
    have h1 : t.id ∈ (stepCreated cfg s valid).map Track.id :=
      List.mem_map_of_mem Track.id ht
    rw [stepCreated_ids] at h1
    exact List.mem_range'_1.mp h1
  have hnodup : ((stepSurvivors cfg s valid ++
      stepCreated cfg s valid).map Track.id).Nodup := by
    rw [List.map_append]
    refine List.Nodup.append ?_ ?_ ?_
    · exact (survivors_ids_sublist cfg s valid).nodup
        ((step_ids_perm cfg s valid).nodup_iff.mpr hnd)
    · rw [stepCreated_ids]
      exact List.nodup_range' ..
    · intro a ha hb
      obtain ⟨u, hu, hid⟩ := List.mem_map.mp ha
      obtain ⟨v, hv, hid'⟩ := List.mem_map.mp hb
      have h1 : a < s.nextId := hid ▸ hsurvlt u hu
      have h2 : s.nextId ≤ a := hid' ▸ (hcreatedge v hv).1
      omega
  refine ⟨⟨hnodup, ?_⟩, ?_, ?_⟩
  · intro t ht
    rcases List.mem_append.mp ht with hs' | hc
    · have := hsurvlt t hs'
      show t.id < s.nextId + (associate cfg s.tracks valid).unmatchedDets.length
      omega
    · exact (hcreatedge t hc).2
  · exact Nat.le_add_right _ _
  · intro t ht hid
    rcases List.mem_append.mp ht with hs' | hc
    · exact survivors_id_mem cfg s valid t hs'
    · have := (hcreatedge t hc).1
      omega

theorem sessionStep_session (cfg : Config) (s : Session)
    (dets : List Detection) :
    (sessionStep cfg s dets).session =
      stepSession cfg s (dets.filter Detection.valid) := rfl

theorem stateAt_succ_lt (cfg : Config) (frames : List (List Detection))
    (i : ℕ) (h : i < frames.length) :
    stateAt cfg frames (i + 1) =
      (sessionStep cfg (stateAt cfg frames i) (frames.getD i [])).session := by
  rw [stateAt, stateAt, List.take_succ, List.foldl_append]
  have hg : frames[i]? = some (frames.getD i []) := by
    rw [List.getD_eq_getElem?_getD]
    cases hx : frames[i]? with
    | none => exact absurd (List.getElem?_eq_none_iff.mp hx) (by omega)
    | some v => rfl
  rw [hg]
  rfl

theorem stateAt_succ_ge (cfg : Config) (frames : List (List Detection))
    (i : ℕ) (h : frames.length ≤ i) :
    stateAt cfg frames (i + 1) = stateAt cfg frames i := by
  rw [stateAt, stateAt, List.take_of_length_le h,
    List.take_of_length_le (le_trans h (Nat.le_succ i))]

theorem sessionInv_stateAt (cfg : Config) (frames : List (List Detection)) :
    ∀ i, sessionInv (stateAt cfg frames i) := by
  intro i
  induction i with
  | zero =>
    refine ⟨List.nodup_nil, ?_⟩
    intro t ht
    exact absurd ht (List.not_mem_nil t)
  | succ i ih =>
    by_cases h : i < frames.length
    · rw [stateAt_succ_lt cfg frames i h, sessionStep_session]
      exact (sessionInv_step cfg _ _ ih).1
    · rw [stateAt_succ_ge cfg frames i (le_of_not_lt h)]
      exact ih

theorem nextId_mono_succ (cfg : Config) (frames : List (List Detection))
    (i : ℕ) :
    (stateAt cfg frames i).nextId ≤ (stateAt cfg frames (i + 1)).nextId := by
  by_cases h : i < frames.length
  · rw [stateAt_succ_lt cfg frames i h, sessionStep_session]
    exact (sessionInv_step cfg _ _ (sessionInv_stateAt cfg frames i)).2.1
  · rw [stateAt_succ_ge cfg frames i (le_of_not_lt h)]

theorem nextId_mono (cfg : Config) (frames : List (List Detection))
    (i j : ℕ) (hij : i ≤ j) :
    (stateAt cfg frames i).nextId ≤ (stateAt cfg frames j).nextId := by
  induction hij with
  | refl => exact le_refl _
  | step h ih => exact le_trans ih (nextId_mono_succ cfg frames _)

theorem trackIds_lt_nextId (cfg : Config) (frames : List (List Detection))
    (i : ℕ) (x : ℕ) (hx : x ∈ trackIds (stateAt cfg frames i)) :
    x < (stateAt cfg frames i).nextId := by
  obtain ⟨t, ht, rfl⟩ := List.mem_map.mp hx
  exact (sessionInv_stateAt cfg frames i).2 t ht

theorem id_not_reused (cfg : Config) (frames : List (List Detection))
    (i k x : ℕ) (hx : x ∈ trackIds (stateAt cfg frames i))
    (hnot : x ∉ trackIds (stateAt cfg frames (i + 1)))
    (hik : i + 1 ≤ k) : x ∉ trackIds (stateAt cfg frames k) := by
  have hxlt : x < (stateAt cfg frames i).nextId :=
    trackIds_lt_nextId cfg frames i x hx
  induction k, hik using Nat.le_induction with
  | base => exact hnot
  | succ m hm ih =>
    by_cases hml : m < frames.length
    · rw [stateAt_succ_lt cfg frames m hml, sessionStep_session]
      intro hmem
      obtain ⟨t, ht, rfl⟩ := List.mem_map.mp hmem
      have hxm : t.id < (stateAt cfg frames m).nextId :=
        lt_of_lt_of_le hxlt (nextId_mono cfg frames i m (by omega))
      have hold := (sessionInv_step cfg _ _
        (sessionInv_stateAt cfg frames m)).2.2 t ht hxm
      exact ih hold
    · rw [stateAt_succ_ge cfg frames m (le_of_not_lt hml)]
      exact ih

theorem sessionStep_newIds (cfg : Config) (s : Session)
    (dets : List Detection) :
    (sessionStep cfg s dets).newIds =
      List.range' s.nextId
        (associate cfg s.tracks
          (dets.filter Detection.valid)).unmatchedDets.length := rfl

theorem sessionStep_nextId (cfg : Config) (s : Session)
    (dets : List Detection) :
    (sessionStep cfg s dets).session.nextId =
      s.nextId +
        (associate cfg s.tracks
          (dets.filter Detection.valid)).unmatchedDets.length := rfl

theorem allocIds_ge (cfg : Config) :
    ∀ (frames : List (List Detection)) (s : Session),
      ∀ x ∈ allocIds cfg s frames, s.nextId ≤ x := by
  intro frames
  induction frames with
  | nil =>
    intro s x hx
    exact absurd hx (List.not_mem_nil x)
  | cons ds rest ih =>
    intro s x hx
    rw [allocIds] at hx
    rcases List.mem_append.mp hx with h | h
    · rw [sessionStep_newIds] at h
      exact (List.mem_range'_1.mp h).1
    · have h1 := ih ((sessionStep cfg s ds).session) x h
      have h2 := sessionStep_nextId cfg s ds
      omega

theorem allocIds_pairwise (cfg : Config) :
    ∀ (frames : List (List Detection)) (s : Session),
      (allocIds cfg s frames).Pairwise (· < ·) := by
  intro frames
  induction frames with
  | nil => intro s; simp [allocIds]
  | cons ds rest ih =>
    intro s
    rw [allocIds]
    rw [List.pairwise_append]
    refine ⟨?_, ih _, ?_⟩
    · rw [sessionStep_newIds]
      exact List.pairwise_lt_range' ..
    · intro x hx y hy
      rw [sessionStep_newIds] at hx
      have h1 := (List.mem_range'_1.mp hx).2
      have h2 := allocIds_ge cfg rest ((sessionStep cfg s ds).session) y hy
      have h3 := sessionStep_nextId cfg s ds
      omega

/-- C4: over a whole tracking run, the Track Set never holds two tracks with
one identifier (in particular no two simultaneously Confirmed tracks share
one), identifiers are handed out in strictly increasing order, and once a
track's identifier has left the Track Set it never returns. -/
theorem track_identifier_discipline (cfg : Config)
    (frames : List (List Detection)) (i j : ℕ) (hij : i ≤ j) :
    (((stateAt cfg frames i).tracks.filter
        (fun t => decide (t.state = .Confirmed))).map Track.id).Nodup ∧
    ((stateAt cfg frames i).tracks.map Track.id).Nodup ∧
    (stateAt cfg frames i).nextId ≤ (stateAt cfg frames j).nextId ∧
    (allocIds cfg initSession frames).Pairwise (· < ·) ∧
    (∀ x, x ∈ trackIds (stateAt cfg frames i) →
      x ∉ trackIds (stateAt cfg frames (i + 1)) →
      i + 1 ≤ j → x ∉ trackIds (stateAt cfg frames j)) := by
  have hinv := sessionInv_stateAt cfg frames i
  refine ⟨?_, hinv.1, nextId_mono cfg frames i j hij,
    allocIds_pairwise cfg frames initSession, ?_⟩
  · exact ((List.filter_sublist _).map Track.id).nodup hinv.1
  · intro x hx hnx hk
    exact id_not_reused cfg frames i j x hx hnx hk

/-- Witness for C4: one detection creates track 0 on frame 1; an empty
frame 2 removes the still-Tentative track; its identifier is gone from the
state after frame 2. -/
theorem track_identifier_discipline_witness :
    1 ≤ 2 ∧
    ((0 : ℕ) ∈ trackIds (stateAt exConfig [[exDetection], []] 1) ∧
     (0 : ℕ) ∉ trackIds (stateAt exConfig [[exDetection], []] 2) ∧
     1 + 1 ≤ 2) ∧
    ((((stateAt exConfig [[exDetection], []] 1).tracks.filter
        (fun t => decide (t.state = .Confirmed))).map Track.id).Nodup ∧
     ((stateAt exConfig [[exDetection], []] 1).tracks.map Track.id).Nodup ∧
     (stateAt exConfig [[exDetection], []] 1).nextId ≤
       (stateAt exConfig [[exDetection], []] 2).nextId ∧
     (allocIds exConfig initSession [[exDetection], []]).Pairwise (· < ·) ∧
     (∀ x, x ∈ trackIds (stateAt exConfig [[exDetection], []] 1) →
       x ∉ trackIds (stateAt exConfig [[exDetection], []] (1 + 1)) →
       1 + 1 ≤ 2 → x ∉ trackIds (stateAt exConfig [[exDetection], []] 2))) := by
  refine ⟨by decide, ⟨?_, ?_, by decide⟩, ?_⟩
  · decide
  · decide
  · exact track_identifier_discipline exConfig [[exDetection], []] 1 2
      (by decide)

end SmartMobility
